import Mathlib

/-!
Verification of the osc-debugger core.

A shallow embedding of the OSC-debugger core: the OSC binary codec
(message encode/decode over UDP datagram bytes), the monitor pump
(`src/monitor.ts`), the send pump (`src/send.ts`, including its
text-to-argument inference `parseInputValue`), and the socket error
handling (`createSocket.ts` + `monitor.ts`).

The codec itself lives in the external `osc-min` dependency whose source
is not part of this repository; it is modelled from the specification's
wire-layout description (§4.1).  Everything else is translated directly
from the TypeScript sources.

Bytes are modelled as `Nat` (with `< 256` side conditions where they
matter); 32-bit integers are `Int` with explicit two's-complement
wrap-around via `% 2^32`; IEEE-754 `Float32` values are carried as their
4-byte big-endian bit pattern (a `Nat < 2^32`), which is exactly what
travels on the wire, so bit-level round-tripping is captured without
modelling floating-point arithmetic.
-/

namespace OscDebugger

/-! ## Data model (spec §3) -/

/-- An OSC argument.  `float32` carries the IEEE-754 bit pattern.
`unknown` is the explicit per-argument degradation variant required by
spec §4.1 for unrecognised type tags. -/
inductive Arg where
  | int32 (i : Int)
  | float32 (bits : Nat)
  | str (s : List Nat)
  | blob (b : List Nat)
  | unknown (tag : Nat)
deriving DecidableEq, Repr

/-- An OSC message: address plus ordered argument list.  The address is a
byte string (UTF-8 bytes). -/
structure Message where
  address : List Nat
  args : List Arg
deriving DecidableEq, Repr

/-- The OSC type-tag character for each argument kind
(`i` = 105, `f` = 102, `s` = 115, `b` = 98). -/
def tagOf : Arg → Nat
  | .int32 _ => 105
  | .float32 _ => 102
  | .str _ => 115
  | .blob _ => 98
  | .unknown t => t

/-- Validity of a single argument for encoding: `int32` in two's-complement
range, `float32` bit patterns 32-bit, string bytes are non-NUL bytes, blob
length fits its 32-bit length prefix and its bytes are bytes. -/
def validArg : Arg → Prop
  | .int32 i => -(2 ^ 31) ≤ i ∧ i < 2 ^ 31
  | .float32 bits => bits < 2 ^ 32
  | .str s => ∀ c ∈ s, c < 256 ∧ c ≠ 0
  | .blob b => b.length < 2 ^ 32 ∧ ∀ c ∈ b, c < 256
  | .unknown _ => False

instance : DecidablePred validArg := by
  intro a; cases a <;> simp [validArg] <;> infer_instance

/-- Message invariant from spec §3: address non-empty, begins with `/`
(byte 47), contains no NUL bytes, and all arguments valid. -/
def validMessage (m : Message) : Prop :=
  m.address ≠ [] ∧ m.address.head? = some 47 ∧
    (∀ c ∈ m.address, c < 256 ∧ c ≠ 0) ∧ ∀ a ∈ m.args, validArg a

instance : DecidablePred validMessage := by
  intro m; unfold validMessage; infer_instance

/-! ## Codec (spec §4.1), modelled from the spec

`Modelled from the spec:` the repository calls `osc.toBuffer` /
`osc.fromBuffer` from the external `osc-min` package, whose source is not
in this repository.  The definitions below follow the wire layout of
spec §4.1: NUL-terminated 4-padded strings, a `,`-led type-tag string,
4-byte big-endian numerics, length-prefixed 4-padded blobs, and the
explicit `Unknown(tag)` per-argument degradation. -/

/-- Big-endian 4-byte encoding of a 32-bit natural. -/
def be4 (n : Nat) : List Nat :=
  [n / 16777216 % 256, n / 65536 % 256, n / 256 % 256, n % 256]

/-- Big-endian 4-byte decoding. -/
def fromBE4 (a b c d : Nat) : Nat :=
  a * 16777216 + b * 65536 + c * 256 + d

/-- Modelled from the spec: OSC string layout — the content bytes, a NUL
terminator, then NUL padding until the total length is a multiple of 4. -/
def encodeOscString (s : List Nat) : List Nat :=
  s ++ List.replicate (4 - s.length % 4) 0

/-- Scan a buffer up to the first NUL byte, returning the content before
it and the remainder after it; `none` when no NUL is present. -/
def scanToNul : List Nat → Option (List Nat × List Nat)
  | [] => none
  | b :: rest =>
    if b = 0 then some ([], rest)
    else (scanToNul rest).map (fun p => (b :: p.1, p.2))

/-- Modelled from the spec: consume one OSC string from the front of a
buffer: content up to the NUL, then skip padding so that the total
consumed (content + NUL + padding) is a multiple of 4.  Rejects a missing
NUL terminator or a buffer truncated inside the padding. -/
def takeOscString (buf : List Nat) : Option (List Nat × List Nat) :=
  match scanToNul buf with
  | none => none
  | some (content, rest) =>
    let pad := 3 - content.length % 4
    if pad ≤ rest.length then some (content, rest.drop pad) else none

/-- Two's-complement reading of a 32-bit natural. -/
def toSigned32 (n : Nat) : Int :=
  if n < 2 ^ 31 then (n : Int) else (n : Int) - 2 ^ 32

/-- Modelled from the spec: encode one argument's value block. -/
def encodeArg : Arg → List Nat
  | .int32 i => be4 (i % 2 ^ 32).toNat
  | .float32 bits => be4 bits
  | .str s => encodeOscString s
  | .blob b => be4 b.length ++ b ++ List.replicate ((4 - b.length % 4) % 4) 0
  | .unknown _ => []

/-- Modelled from the spec: encode a message — padded address string,
padded type-tag string led by `,` (byte 44), then the argument blocks in
order. -/
def encode (m : Message) : List Nat :=
  encodeOscString m.address ++
    encodeOscString (44 :: m.args.map tagOf) ++
    (m.args.map encodeArg).flatten

/-- Modelled from the spec: decode one argument given its type tag.
An unrecognised tag is surfaced as `unknown tag` consuming no bytes, as
required by spec §4.1 (per-argument degradation instead of failing the
whole message). -/
def decodeArg (tag : Nat) (buf : List Nat) : Option (Arg × List Nat) :=
  if tag = 105 then
    match buf with
    | a :: b :: c :: d :: rest => some (.int32 (toSigned32 (fromBE4 a b c d)), rest)
    | _ => none
  else if tag = 102 then
    match buf with
    | a :: b :: c :: d :: rest => some (.float32 (fromBE4 a b c d), rest)
    | _ => none
  else if tag = 115 then
    (takeOscString buf).map (fun p => (.str p.1, p.2))
  else if tag = 98 then
    match buf with
    | a :: b :: c :: d :: rest =>
      let n := fromBE4 a b c d
      let pad := (4 - n % 4) % 4
      if n + pad ≤ rest.length then some (.blob (rest.take n), rest.drop (n + pad))
      else none
    | _ => none
  else
    some (.unknown tag, buf)

/-- Modelled from the spec: decode the argument blocks for a list of
type tags, in order. -/
def decodeArgs : List Nat → List Nat → Option (List Arg × List Nat)
  | [], buf => some ([], buf)
  | t :: ts, buf =>
    match decodeArg t buf with
    | none => none
    | some (a, rest) =>
      match decodeArgs ts rest with
      | none => none
      | some (as, rest2) => some (a :: as, rest2)

/-- Decode failure taxonomy (spec §4.1 / §7, `MalformedPacket`). -/
inductive DecodeError where
  | badAddress
  | badTypeTags
  | badArgs
  | trailingBytes
deriving DecidableEq, Repr

/-- Modelled from the spec: decode a whole datagram into a message.
Rejects a missing/ill-formed address string, an address not starting with
`/`, a type-tag string not led by `,`, truncated argument blocks, and
trailing unconsumed bytes. -/
def decode (buf : List Nat) : Except DecodeError Message :=
  match takeOscString buf with
  | none => .error .badAddress
  | some (addr, rest) =>
    if addr.head? = some 47 then
      match takeOscString rest with
      | none => .error .badTypeTags
      | some (tagStr, rest2) =>
        match tagStr with
        | 44 :: tags =>
          match decodeArgs tags rest2 with
          | none => .error .badArgs
          | some (args, leftover) =>
            if leftover = [] then .ok ⟨addr, args⟩ else .error .trailingBytes
        | _ => .error .badTypeTags
    else .error .badAddress

/-! ## Monitor pump (`src/monitor.ts`) -/

/-- Pump state (spec §4.3): `listening` while the socket is receiving,
`stopped` once the endpoint is closed. -/
inductive PumpState where
  | listening
  | stopped
deriving DecidableEq, Repr

/-- One notice handed to the sink per datagram, from the `message`-event
handler in `src/monitor.ts`: a decoded record (the `console.log` of
address/args), the "Received OSC message without address" warning, or the
"Error parsing OSC message" decode-failure notice from the `catch`. -/
inductive MonitorNotice where
  | decoded (m : Message)
  | noAddress
  | decodeFailed (e : DecodeError)
deriving DecidableEq, Repr

/-- The body of the message-event handler in `src/monitor.ts` (lines
36–79): decode the datagram; a decode failure is caught and reported; a
message with a falsy address only warns; otherwise the decoded record is
logged (both the with-args and no-payload `console.log` branches emit one
record line).  Every branch returns normally — nothing in the handler
closes the socket or rethrows. -/
def monitorHandle (buf : List Nat) : MonitorNotice :=
  match decode buf with
  | .error e => .decodeFailed e
  | .ok m => if m.address = [] then .noAddress else .decoded m

/-- The monitor pump over a sequence of incoming datagrams, in network
order (spec §5 forbids reordering).  Each datagram is handled by
`monitorHandle`; since no branch of the handler terminates the pump, the
state after each datagram is `listening`. -/
def monitorRun : List (List Nat) → PumpState × List MonitorNotice
  | [] => (.listening, [])
  | b :: rest =>
    let n := monitorHandle b
    let p := monitorRun rest
    (p.1, n :: p.2)

/-! ## Socket error handling (`src/createSocket.ts` + `src/monitor.ts`) -/

/-- The parts of the monitor system a socket `error` event can observe:
whether the UDP handle is still open and whether the `createUdpSocket`
promise has already settled (it settles when `listening` fires or on the
first rejection). -/
structure MonitorSys where
  socketOpen : Bool
  promiseSettled : Bool
deriving DecidableEq, Repr

/-- How a socket error reaches the outside world. -/
inductive ErrorReport where
  | loggedOnly
  | rejectedToCaller
deriving DecidableEq, Repr

/-- Combined effect of the two `error` handlers registered on the monitor
socket, in registration order: `createUdpSocket`'s handler
(`src/createSocket.ts` lines 15–23: log, `udp.close()`, `reject(err)`)
and then `src/monitor.ts`'s handler (lines 81–84: log only).  A promise
settles at most once, so the `reject(err)` reaches the caller only when
the promise is not yet settled; afterwards it is a no-op and the error is
only logged. -/
def onSocketError (sys : MonitorSys) : MonitorSys × ErrorReport :=
  ({ socketOpen := false, promiseSettled := true },
   if sys.promiseSettled then .loggedOnly else .rejectedToCaller)

/-- A closed socket emits no further `message` events, so the pump of a
system whose socket is closed is `stopped`. -/
def pumpStateOf (sys : MonitorSys) : PumpState :=
  if sys.socketOpen then .listening else .stopped

/-! ## Text-to-argument inference (`parseInputValue` in `src/send.ts`) -/

/-- The result of `parseInputValue`: the TypeScript returns
`string | number`; the two numeric branches (`parseInt` / `parseFloat`)
are kept apart, matching the spec's `Int32` / `Float32` reading of them.
Numeric values are exact rationals: every literal in the claims is
exactly representable, so IEEE-754 rounding never matters here. -/
inductive ParsedValue where
  | str (s : String)
  | float (q : ℚ)
  | int (n : Int)
deriving DecidableEq, Repr

/-- JavaScript `String.prototype.trim`: strip leading and trailing
whitespace. -/
def jsTrim (s : String) : String :=
  ⟨((s.data.dropWhile Char.isWhitespace).reverse.dropWhile Char.isWhitespace).reverse⟩

/-- The quoted-string test `/^"[^"]+"$/` of `parseInputValue`: a leading
and a trailing double quote around at least one character, none of which
is a double quote; on a match the quotes are stripped. -/
def quotedContent (s : String) : Option String :=
  match s.data with
  | c :: rest =>
    if c = '"' ∧ rest.getLast? = some '"' ∧ rest.dropLast ≠ [] ∧
        ∀ x ∈ rest.dropLast, x ≠ '"' then
      some ⟨rest.dropLast⟩
    else none
  | [] => none

/-- Numeric value of a base-10 digit run. -/
def natOfDigits (ds : List Char) : Nat :=
  ds.foldl (fun n c => n * 10 + (c.toNat - 48)) 0

/-- JavaScript `parseInt(value, 10)`: skip leading whitespace, an optional
sign, then the longest base-10 digit prefix; `NaN` (here `none`) when no
digit is found.  (Values in this development stay far below 2^53, where
`parseInt`'s double-precision result is exact.) -/
def parseIntJS (s : String) : Option Int :=
  let t := s.data.dropWhile Char.isWhitespace
  let sgn : Int := match t with
    | '-' :: _ => -1
    | _ => 1
  let t1 := match t with
    | '-' :: r => r
    | '+' :: r => r
    | _ => t
  let ds := t1.takeWhile Char.isDigit
  if ds = [] then none else some (sgn * natOfDigits ds)

/-- Ten to an integer power, as a rational. -/
def tenPow (e : Int) : ℚ :=
  if 0 ≤ e then (10 : ℚ) ^ e.toNat else ((10 : ℚ) ^ (-e).toNat)⁻¹

/-- The optional exponent part of a JavaScript decimal literal:
`e`/`E`, an optional sign, and at least one digit; when the digits are
missing nothing is consumed (as in `parseFloat("1.5e") = 1.5`).  Returns
the exponent and the unconsumed remainder. -/
def parseExpPart (r : List Char) : Int × List Char :=
  match r with
  | c :: r1 =>
    if c = 'e' ∨ c = 'E' then
      let sgn : Int := match r1 with
        | '-' :: _ => -1
        | _ => 1
      let r2 := match r1 with
        | '-' :: rr => rr
        | '+' :: rr => rr
        | _ => r1
      let es := r2.takeWhile Char.isDigit
      if es = [] then (0, r)
      else (sgn * natOfDigits es, r2.dropWhile Char.isDigit)
    else (0, r)
  | [] => (0, [])

/-- The syntactic part of JavaScript `parseFloat`: skip leading
whitespace and an optional sign, then the longest decimal-literal
prefix — digits, an optional `.` with fractional digits (at least one
digit overall), and an optional exponent.  Returns
(negative?, integer digits, fractional digits, exponent, unconsumed
remainder); `none` when no prefix parses (`NaN`).  The `Infinity`
literal, which no claim touches, is not modelled. -/
def scanFloat (l : List Char) : Option (Bool × List Char × List Char × Int × List Char) :=
  let t := l.dropWhile Char.isWhitespace
  let neg : Bool := match t with
    | '-' :: _ => true
    | _ => false
  let t1 := match t with
    | '-' :: r => r
    | '+' :: r => r
    | _ => t
  let ds := t1.takeWhile Char.isDigit
  let r1 := t1.dropWhile Char.isDigit
  match r1 with
  | '.' :: r2 =>
    let fs := r2.takeWhile Char.isDigit
    let r3 := r2.dropWhile Char.isDigit
    if ds = [] ∧ fs = [] then none
    else
      let ep := parseExpPart r3
      some (neg, ds, fs, ep.1, ep.2)
  | _ =>
    if ds = [] then none
    else
      let ep := parseExpPart r1
      some (neg, ds, [], ep.1, ep.2)

/-- The exact rational value of a scanned decimal literal:
`±(ds . fs) × 10^e`. -/
def ratOfParts (neg : Bool) (ds fs : List Char) (e : Int) : ℚ :=
  (if neg then -1 else 1) *
    ((natOfDigits ds : ℚ) + (natOfDigits fs : ℚ) / (10 : ℚ) ^ fs.length) *
    tenPow e

/-- JavaScript `parseFloat` with the unconsumed remainder: the value of
the longest decimal-literal prefix. -/
def parseFloatParts (s : String) : Option (ℚ × List Char) :=
  (scanFloat s.data).map (fun p => (ratOfParts p.1 p.2.1 p.2.2.1 p.2.2.2.1, p.2.2.2.2))

/-- JavaScript `parseFloat`'s value alone. -/
def parseFloatJS (s : String) : Option ℚ :=
  (parseFloatParts s).map (fun p => p.1)

/-- Whether a token is, in its entirety, a valid floating-point literal:
the decimal-literal grammar consumes the whole token.  This follows the
spec's words ("parse as a floating-point literal; a parse failure is an
error") and is used to compare the spec against the code's
longest-prefix behaviour. -/
def floatLitFull (s : String) : Bool :=
  match scanFloat s.data with
  | some (_, _, _, _, []) => true
  | _ => false

/-- Model of parseInputValue from `src/send.ts` (lines 19–44): reject an
empty/blank value; strip a `/^"[^"]+"$/` quoted string; else if the value
contains a `.` take `parseFloat`, erroring only on `NaN`; else take
`parseInt(·, 10)`, erroring only on `NaN`. -/
def parseInputValue (value : String) : Except String ParsedValue :=
  if value = "" ∨ jsTrim value = "" then .error "Value cannot be empty"
  else
    match quotedContent value with
    | some inner => .ok (.str inner)
    | none =>
      if value.data.contains '.' then
        match parseFloatJS value with
        | none => .error ("Invalid number: " ++ value)
        | some q => .ok (.float q)
      else
        match parseIntJS value with
        | none => .error ("Invalid integer: " ++ value)
        | some n => .ok (.int n)

/-! ## Send pump (`src/send.ts`) -/

/-- Split a character list at every whitespace character; words may be
empty where whitespace runs occur. -/
def splitWsAux : List Char → List (List Char)
  | [] => [[]]
  | c :: cs =>
    let r := splitWsAux cs
    if c.isWhitespace then [] :: r
    else (c :: r.headD []) :: r.tail

/-- The non-empty words of a character list.  On input without leading or
trailing whitespace — `send.ts` always splits the *trimmed* line — this
is exactly JavaScript `split(/\s+/)`. -/
def wordsOf (l : List Char) : List (List Char) :=
  (splitWsAux l).filter (fun w => w ≠ [])

/-- Model of trimmedInput.split on whitespace runs, `src/send.ts` line 173. -/
def partsOf (line : String) : List String :=
  (wordsOf (jsTrim line).data).map (fun w => ⟨w⟩)

/-- Join words with a single space: `parts.slice(1).join(' ')`. -/
def joinSpace : List (List Char) → List Char
  | [] => []
  | [w] => w
  | w :: ws => w ++ ' ' :: joinSpace ws

/-- The raw value string of a command line, `src/send.ts` line 181:
everything after the address token, re-joined with single spaces. -/
def rawValueOf (line : String) : String :=
  ⟨joinSpace ((wordsOf (jsTrim line).data).tail)⟩

/-- Model of the startsWith-slash address check, `src/send.ts` line 177. -/
def startsWithSlash (s : String) : Bool :=
  match s.data with
  | '/' :: _ => true
  | _ => false

/-- ASCII `toLowerCase`. -/
def asciiLowerChar (c : Char) : Char :=
  if 'A' ≤ c ∧ c ≤ 'Z' then Char.ofNat (c.toNat + 32) else c

/-- JavaScript toLowerCase restricted to ASCII, which covers the
quit tokens. -/
def asciiLower (s : String) : String :=
  ⟨s.data.map asciiLowerChar⟩

/-- The quit test of `src/send.ts` line 160: the trimmed line,
lower-cased, is `q`, `quit` or `exit`. -/
def isQuit (line : String) : Bool :=
  let t := asciiLower (jsTrim line)
  t = "q" ∨ t = "quit" ∨ t = "exit"

/-- One notice per command line from the send loop of `src/send.ts`:
quitting, the address/value validation errors, a value parse error, a
successful send echo, or a transport send failure (caught by the loop's
`catch`). -/
inductive SendNotice where
  | quit
  | errAddress
  | errNoValue
  | errParse (e : String)
  | sent (addr : String) (v : ParsedValue)
  | errSend (e : String)
deriving DecidableEq, Repr

/-- One iteration of the send loop (`src/send.ts` lines 136–222) on an
already-entered line.  `net` is the outcome the transport would give the
attempted send (`socket.send` callback): the network's behaviour is an
input to the model.  Quit closes the socket and exits; an address not
starting with `/` or a missing value is reported and skipped; a parse
failure is caught and reported; otherwise the message is encoded and
sent, and a send failure is caught by the surrounding `catch` and
reported.  Every non-quit branch leaves the loop running. -/
def processLine (line : String) (net : Except String Unit) : SendNotice × PumpState :=
  if isQuit line then (.quit, .stopped)
  else
    let parts := partsOf line
    if startsWithSlash (parts.headD "") then
      let rawValue := rawValueOf line
      if rawValue = "" then (.errNoValue, .listening)
      else
        match parseInputValue rawValue with
        | .error e => (.errParse e, .listening)
        | .ok v =>
          match net with
          | .ok _ => (.sent (parts.headD "") v, .listening)
          | .error e => (.errSend e, .listening)
    else (.errAddress, .listening)

/-- The send pump over a sequence of (line, transport outcome) pairs:
loop until a quit command stops it. -/
def sendRun : List (String × Except String Unit) → PumpState × List SendNotice
  | [] => (.listening, [])
  | (line, net) :: rest =>
    match processLine line net with
    | (n, .stopped) => (.stopped, [n])
    | (n, .listening) =>
      let p := sendRun rest
      (p.1, n :: p.2)

/-- Adjacent characters are never both whitespace: the "collapsed runs"
property of a re-joined value string. -/
def noDoubleWs (s : String) : Prop :=
  s.data.Chain' (fun a b => ¬(a.isWhitespace ∧ b.isWhitespace))

instance {ε α : Type} [DecidableEq ε] [DecidableEq α] : DecidableEq (Except ε α) := fun x y =>
  match x, y with
  | .ok a, .ok b =>
    if h : a = b then .isTrue (by rw [h]) else .isFalse (by simp [h])
  | .error a, .error b =>
    if h : a = b then .isTrue (by rw [h]) else .isFalse (by simp [h])
  | .ok _, .error _ => .isFalse (by simp)
  | .error _, .ok _ => .isFalse (by simp)

/-! ## Example values used by the witnesses -/

/-- A valid message exercising all four argument kinds
(`float32` bits 1078530011 = 0x40490FDB, the IEEE-754 pattern of 3.14159…). -/
def mC1 : Message :=
  ⟨[47, 97], [.int32 (-5), .float32 1078530011, .str [104, 105], .blob [1, 2, 3]]⟩

/-- The message /b with one int argument. -/
def mC2a : Message := ⟨[47, 98], [.int32 7]⟩

/-- The message /c with one string argument. -/
def mC2b : Message := ⟨[47, 99], [.str [120]]⟩

/-- A buffer whose type-tag string declares an `i` argument followed by an
unrecognised tag `X` (88): address `/a`, tags `,iX`, then one int block. -/
def bufC3 : List Nat :=
  encodeOscString [47, 97] ++ encodeOscString [44, 105, 88] ++ be4 7

/-- The message `bufC3` decodes to. -/
def mC3 : Message := ⟨[47, 97], [.int32 7, .unknown 88]⟩

/-! ## Round-trip lemmas for the codec -/

theorem scanToNul_append (s rest : List Nat) (h : ∀ c ∈ s, c ≠ 0) :
    scanToNul (s ++ 0 :: rest) = some (s, rest) := by
  induction s with
  | nil => simp [scanToNul]
  | cons b bs ih =>
    have hb : b ≠ 0 := h b (List.mem_cons_self b bs)
    have ih' := ih (fun c hc => h c (List.mem_cons_of_mem b hc))
    simp [scanToNul, hb, ih']

theorem takeOscString_encode (s rest : List Nat) (h : ∀ c ∈ s, c ≠ 0) :
    takeOscString (encodeOscString s ++ rest) = some (s, rest) := by
  have hmod : s.length % 4 < 4 := Nat.mod_lt _ (by norm_num)
  have hrepl : (4 - s.length % 4) = (3 - s.length % 4) + 1 := by omega
  have hshape : encodeOscString s ++ rest =
      s ++ 0 :: (List.replicate (3 - s.length % 4) 0 ++ rest) := by
    simp only [encodeOscString, hrepl, List.replicate_succ, List.append_assoc,
      List.cons_append]
  rw [hshape, takeOscString, scanToNul_append s _ h]
  simp [List.drop_append_of_le_length, List.drop_replicate]

theorem fromBE4_be4 (n : Nat) (h : n < 2 ^ 32) :
    fromBE4 (n / 16777216 % 256) (n / 65536 % 256) (n / 256 % 256) (n % 256) = n := by
  unfold fromBE4
  omega

theorem decodeArg_encode (a : Arg) (rest : List Nat) (h : validArg a) :
    decodeArg (tagOf a) (encodeArg a ++ rest) = some (a, rest) := by
  cases a with
  | int32 i =>
    obtain ⟨h1, h2⟩ := h
    have hlt : (i % 2 ^ 32).toNat < 2 ^ 32 := by omega
    simp only [tagOf, encodeArg, be4, List.cons_append, List.nil_append, decodeArg,
      reduceIte]
    rw [fromBE4_be4 _ hlt]
    have hts : toSigned32 (i % 2 ^ 32).toNat = i := by
      unfold toSigned32
      split <;> omega
    rw [hts]
  | float32 bits =>
    simp only [tagOf, encodeArg, be4, List.cons_append, List.nil_append, decodeArg,
      reduceIte]
    rw [fromBE4_be4 _ h]
    simp
  | str s =>
    have hs : ∀ c ∈ s, c ≠ 0 := fun c hc => (h c hc).2
    simp only [tagOf, decodeArg, reduceIte, encodeArg]
    rw [takeOscString_encode s rest hs]
    rfl
  | blob b =>
    obtain ⟨h1, _⟩ := h
    simp only [tagOf, encodeArg, be4, List.append_assoc, List.cons_append,
      List.nil_append, decodeArg, reduceIte]
    rw [fromBE4_be4 _ h1]
    have hlen : b.length + (4 - b.length % 4) % 4 ≤
        (b ++ (List.replicate ((4 - b.length % 4) % 4) 0 ++ rest)).length := by
      simp
    rw [if_pos hlen]
    have htake : (b ++ (List.replicate ((4 - b.length % 4) % 4) 0 ++ rest)).take b.length = b := by
      rw [List.take_append_of_le_length (Nat.le_refl _), List.take_length]
    have hdrop : (b ++ (List.replicate ((4 - b.length % 4) % 4) 0 ++ rest)).drop
        (b.length + (4 - b.length % 4) % 4) = rest := by
      rw [List.drop_append, List.drop_append_of_le_length (by simp), List.drop_replicate]
      simp
    rw [htake, hdrop]
    simp
  | unknown t => exact absurd h (by simp [validArg])

theorem decodeArgs_encode (args : List Arg) (rest : List Nat)
    (h : ∀ a ∈ args, validArg a) :
    decodeArgs (args.map tagOf) ((args.map encodeArg).flatten ++ rest) =
      some (args, rest) := by
  induction args with
  | nil => simp [decodeArgs]
  | cons a as ih =>
    have ha : validArg a := h a (List.mem_cons_self a as)
    have ih' := ih (fun x hx => h x (List.mem_cons_of_mem a hx))
    simp only [List.map_cons, List.flatten_cons, List.append_assoc, decodeArgs,
      decodeArg_encode a _ ha, ih']

theorem tagOf_ne_zero (a : Arg) (h : validArg a) : tagOf a ≠ 0 := by
  cases a <;> simp_all [tagOf, validArg]

theorem decode_encode (m : Message) (h : validMessage m) :
    decode (encode m) = .ok m := by
  obtain ⟨hne, hhead, haddr, hargs⟩ := h
  have haddr0 : ∀ c ∈ m.address, c ≠ 0 := fun c hc => (haddr c hc).2
  have htags0 : ∀ c ∈ 44 :: m.args.map tagOf, c ≠ 0 := by
    intro c hc
    rcases List.mem_cons.mp hc with h44 | hmem
    · omega
    · obtain ⟨a, hamem, rfl⟩ := List.mem_map.mp hmem
      exact tagOf_ne_zero a (hargs a hamem)
  have hdArgs := decodeArgs_encode m.args [] hargs
  rw [List.append_nil] at hdArgs
  unfold encode decode
  rw [List.append_assoc, takeOscString_encode _ _ haddr0]
  simp only [hhead, reduceIte, takeOscString_encode _ _ htags0, hdArgs]

/-- Evaluation rule for `parseInputValue` on the float branch: once the
scanner's output is known, the result is the rational value of the
scanned parts. -/
theorem parseInputValue_float_eval (v : String) (hne : ¬(v = "" ∨ jsTrim v = ""))
    (hq : quotedContent v = none) (hc : v.data.contains '.' = true)
    (neg : Bool) (ds fs : List Char) (e : Int) (rest : List Char)
    (hs : scanFloat v.data = some (neg, ds, fs, e, rest)) :
    parseInputValue v = .ok (.float (ratOfParts neg ds fs e)) := by
  unfold parseInputValue
  rw [if_neg hne]
  simp only [hq, hc, if_true]
  unfold parseFloatJS parseFloatParts
  rw [hs]
  rfl

/-! ## The claims -/

/-- C1: for every valid `Message` m (address non-empty, starting with `/`,
no NUL bytes; arguments drawn from Int32/Float32/String/Blob), decoding
the bytes produced by encoding m yields a message equal to m. -/
theorem c1_roundtrip (m : Message) (h : validMessage m) :
    decode (encode m) = Except.ok m :=
  decode_encode m h

theorem c1_roundtrip_witness :
    validMessage mC1 ∧ decode (encode mC1) = Except.ok mC1 :=
  ⟨by decide, c1_roundtrip mC1 (by decide)⟩

/-- C2: the monitor pump stays `listening` over any datagram sequence,
and for a sequence of 3 datagrams whose 2nd is malformed it emits exactly
3 notices — 2 decoded records and 1 decode-error notice — and is still
listening afterwards; a malformed datagram never terminates the pump. -/
theorem c2_monitor_resilience :
    (∀ bufs : List (List Nat), (monitorRun bufs).1 = PumpState.listening) ∧
    ∀ (b1 b2 b3 : List Nat) (m1 m3 : Message) (e : DecodeError),
      decode b1 = .ok m1 → m1.address ≠ [] →
      decode b2 = .error e →
      decode b3 = .ok m3 → m3.address ≠ [] →
      monitorRun [b1, b2, b3] =
        (PumpState.listening,
          [MonitorNotice.decoded m1, MonitorNotice.decodeFailed e,
            MonitorNotice.decoded m3]) := by
  constructor
  · intro bufs
    induction bufs with
    | nil => rfl
    | cons b rest ih => simp [monitorRun, ih]
  · intro b1 b2 b3 m1 m3 e h1 hm1 h2 h3 hm3
    simp [monitorRun, monitorHandle, h1, h2, h3, hm1, hm3]

theorem c2_witness :
    monitorRun [encode mC2a, [1], encode mC2b] =
      (PumpState.listening,
        [MonitorNotice.decoded mC2a, MonitorNotice.decodeFailed DecodeError.badAddress,
          MonitorNotice.decoded mC2b]) :=
  c2_monitor_resilience.2 _ _ _ _ _ _ (by decide) (by decide) (by decide)
    (by decide) (by decide)

/-- C3: a buffer that decodes to a message with a usable address but one
argument of unrecognised tag surfaces that argument as an explicit
`unknown tag` variant, and the message — bad argument included — is still
delivered to the sink; concretely `bufC3` (tags `,iX`) decodes to the
int argument plus `unknown 88` instead of being discarded. -/
theorem c3_unknown_arg :
    (∀ (buf : List Nat) (m : Message) (t : Nat),
        decode buf = .ok m → m.address ≠ [] → Arg.unknown t ∈ m.args →
        monitorHandle buf = .decoded m) ∧
    decode bufC3 = .ok mC3 ∧ Arg.unknown 88 ∈ mC3.args := by
  refine ⟨?_, by decide, by decide⟩
  intro buf m t hdec hne _
  simp [monitorHandle, hdec, hne]

theorem c3_witness : monitorHandle bufC3 = .decoded mC3 :=
  c3_unknown_arg.1 bufC3 mC3 88 (by decide) (by decide) (by decide)

/-- C4: the text-to-argument inference satisfies the spec's table:
`infer("42") = Int32 42`, `infer("3.14") = Float32 3.14`,
`infer("\"red\"") = String "red"`, `infer("")` is an error, and unquoted
`infer("1.0")` is `Float32 1.0`, not a String. -/
theorem c4_inference_table :
    parseInputValue "42" = .ok (.int 42) ∧
    parseInputValue "3.14" = .ok (.float (157 / 50)) ∧
    parseInputValue "\"red\"" = .ok (.str "red") ∧
    parseInputValue "" = .error "Value cannot be empty" ∧
    parseInputValue "1.0" = .ok (.float 1) := by
  refine ⟨by decide, ?_, by decide, by decide, ?_⟩
  · rw [parseInputValue_float_eval "3.14" (by decide) (by decide) (by decide)
      false ['3'] ['1', '4'] 0 [] (by decide)]
    have d1 : natOfDigits ['3'] = 3 := by decide
    have d2 : natOfDigits ['1', '4'] = 14 := by decide
    norm_num [ratOfParts, tenPow, d1, d2]
  · rw [parseInputValue_float_eval "1.0" (by decide) (by decide) (by decide)
      false ['1'] ['0'] 0 [] (by decide)]
    have d1 : natOfDigits ['1'] = 1 := by decide
    have d2 : natOfDigits ['0'] = 0 := by decide
    norm_num [ratOfParts, tenPow, d1, d2]

/-- C9 counterexample: an unquoted token in scientific notation is not
rejected — `parseInt("1e5", 10)` consumes the digit prefix before `e`, so
the inference yields `Int32 1` where the claim demands an error. -/
theorem c9_counterexample : parseInputValue "1e5" = .ok (.int 1) := by decide

/-- C9 amended: scientific notation, negative zero, and values beyond the
Int32 range are not rejected; the inference follows JavaScript
`parseInt`/`parseFloat` prefix semantics: `"1e5" ↦ Int32 1` (prefix before
`e`), `"-0" ↦ Int32 0`, `"1.5e3" ↦ Float32 1500` (the float branch does
accept exponents), and `"4000000000" ↦ Int32 4000000000` is passed through
unrejected despite exceeding the Int32 range. -/
theorem c9_amended :
    parseInputValue "1e5" = .ok (.int 1) ∧
    parseInputValue "-0" = .ok (.int 0) ∧
    parseInputValue "1.5e3" = .ok (.float 1500) ∧
    parseInputValue "4000000000" = .ok (.int 4000000000) := by
  refine ⟨by decide, by decide, ?_, by decide⟩
  rw [parseInputValue_float_eval "1.5e3" (by decide) (by decide) (by decide)
    false ['1'] ['5'] 3 [] (by decide)]
  have d1 : natOfDigits ['1'] = 1 := by decide
  have d2 : natOfDigits ['5'] = 5 := by decide
  have d3 : (3 : Int).toNat = 3 := rfl
  norm_num [ratOfParts, tenPow, d1, d2, d3]

/-- C5 counterexample: `"1.5x"` is not a valid floating-point literal,
yet the inference does not report an error — JavaScript `parseFloat`
returns the partially parsed value 1.5, which the code accepts. -/
theorem c5_counterexample :
    parseInputValue "1.5x" = .ok (.float (3 / 2)) ∧ floatLitFull "1.5x" = false := by
  constructor
  · rw [parseInputValue_float_eval "1.5x" (by decide) (by decide) (by decide)
      false ['1'] ['5'] 0 ['x'] (by decide)]
    have d1 : natOfDigits ['1'] = 1 := by decide
    have d2 : natOfDigits ['5'] = 5 := by decide
    norm_num [ratOfParts, tenPow, d1, d2]
  · decide

/-- C5 amended: for an unquoted, non-blank token, the branch with a `.`
errors exactly when `parseFloat` finds no decimal-literal prefix at all,
and otherwise returns the value of the longest such prefix (so a full
valid literal yields its value, but a trailing-garbage token is accepted
with its prefix value rather than rejected); symmetrically, the branch
without a `.` errors exactly when `parseInt` finds no digit prefix, and
otherwise returns the prefix's integer value. -/
theorem c5_amended (v : String) (h0 : ¬(v = "" ∨ jsTrim v = ""))
    (hq : quotedContent v = none) :
    (v.data.contains '.' = true →
      ((∃ err, parseInputValue v = .error err) ↔ scanFloat v.data = none) ∧
      ∀ neg ds fs e rest, scanFloat v.data = some (neg, ds, fs, e, rest) →
        parseInputValue v = .ok (.float (ratOfParts neg ds fs e))) ∧
    (v.data.contains '.' = false →
      ((∃ err, parseInputValue v = .error err) ↔ parseIntJS v = none) ∧
      ∀ n, parseIntJS v = some n → parseInputValue v = .ok (.int n)) := by
  constructor
  · intro hc
    constructor
    · unfold parseInputValue
      rw [if_neg h0]
      simp only [hq, hc, if_true]
      unfold parseFloatJS parseFloatParts
      cases hsf : scanFloat v.data <;> simp
    · intro neg ds fs e rest hs
      exact parseInputValue_float_eval v h0 hq hc neg ds fs e rest hs
  · intro hc
    unfold parseInputValue
    rw [if_neg h0]
    simp only [hq, hc, Bool.false_eq_true, if_false]
    constructor
    · cases hip : parseIntJS v <;> simp
    · intro n hn
      rw [hn]

theorem c5_witness :
    parseInputValue "1.5x" = .ok (.float (ratOfParts false ['1'] ['5'] 0)) :=
  ((c5_amended "1.5x" (by decide) (by decide)).1 (by decide)).2
    false ['1'] ['5'] 0 ['x'] (by decide)

/-- C6 counterexample: the quoted-empty token `""` is not stripped to
`String ""` — the regex `/^"[^"]+"$/` requires at least one inner
character, so `""` falls through to the integer branch and errors. -/
theorem c6_counterexample :
    parseInputValue "\"\"" = .error "Invalid integer: \"\"" := by decide

/-- C6 amended: a token wrapped in a matching pair of double quotes with
non-empty content free of double quotes — including content that is an
otherwise-numeric literal — is stripped to a `String` argument; the empty
quoted token `""` is instead an error (see the counterexample). -/
theorem c6_amended (s : String) (h1 : s ≠ "") (h2 : ∀ c ∈ s.data, c ≠ '"') :
    parseInputValue ("\"" ++ s ++ "\"") = .ok (.str s) := by
  have hdata : ("\"" ++ s ++ "\"").data = '"' :: (s.data ++ ['"']) := rfl
  have hsd : s.data ≠ [] := by
    intro hnil
    apply h1
    cases s with
    | mk l => cases hnil; rfl
  have hne : ("\"" ++ s ++ "\"") ≠ "" := by
    intro hcontr
    have : ("\"" ++ s ++ "\"").data = [] := by rw [hcontr]
    rw [hdata] at this
    exact List.cons_ne_nil _ _ this
  have htrim : jsTrim ("\"" ++ s ++ "\"") = "\"" ++ s ++ "\"" := by
    unfold jsTrim
    rw [hdata]
    have hq : ('"' : Char).isWhitespace = false := by decide
    rw [List.dropWhile_cons]
    simp only [hq, Bool.false_eq_true, if_false]
    rw [show ('"' :: (s.data ++ ['"'])).reverse = '"' :: (s.data.reverse ++ ['"']) by
      simp]
    rw [List.dropWhile_cons]
    simp only [hq, Bool.false_eq_true, if_false]
    rw [show ('"' :: (s.data.reverse ++ ['"'])).reverse = '"' :: (s.data ++ ['"']) by
      simp]
    rw [← hdata]
  have hquoted : quotedContent ("\"" ++ s ++ "\"") = some s := by
    unfold quotedContent
    rw [hdata]
    simp [List.getLast?_concat, List.dropLast_concat, hsd, h2]
    exact fun hmem => h2 _ hmem rfl
  unfold parseInputValue
  rw [if_neg (by rw [htrim]; simp [hne])]
  simp only [hquoted]

theorem c6_witness : parseInputValue "\"42\"" = .ok (.str "42") :=
  c6_amended "42" (by decide) (by decide)

/-- C7 counterexample: once the bind promise has settled (the monitor is
listening), a transport-level socket error is only logged — the
`reject(err)` in `createSocket.ts` is a no-op on a settled promise — so
the error is not reported to the caller as fatal, contrary to the
claim. -/
theorem c7_counterexample :
    (onSocketError ⟨true, true⟩).2 = ErrorReport.loggedOnly ∧
    ErrorReport.loggedOnly ≠ ErrorReport.rejectedToCaller := by decide

/-- C7 amended: on a socket error the endpoint is closed and the pump is
stopped (it never continues listening), but the error is reported to the
caller as a rejection only when it occurs before the bind promise has
settled; after that it is merely logged. -/
theorem c7_amended (sys : MonitorSys) :
    pumpStateOf (onSocketError sys).1 = PumpState.stopped ∧
    (onSocketError sys).1.socketOpen = false ∧
    ((onSocketError sys).2 = ErrorReport.rejectedToCaller ↔
      sys.promiseSettled = false) := by
  obtain ⟨o, p⟩ := sys
  cases p <;> simp [onSocketError, pumpStateOf]

/-- C8: for every non-quit command line, the send loop stays listening
whatever the outcome — so a validation failure, a parse failure, or a
transport-level send failure never terminates the pump; the pump
processes the rest of the command sequence after any such line; and a
value parse failure is reported as a parse-error notice (nothing is
sent). -/
theorem c8_send_isolation (line : String) (net : Except String Unit)
    (rest : List (String × Except String Unit)) (hq : isQuit line = false) :
    (processLine line net).2 = PumpState.listening ∧
    sendRun ((line, net) :: rest) =
      ((sendRun rest).1, (processLine line net).1 :: (sendRun rest).2) ∧
    ∀ err, startsWithSlash ((partsOf line).headD "") = true →
      rawValueOf line ≠ "" →
      parseInputValue (rawValueOf line) = .error err →
      (processLine line net).1 = SendNotice.errParse err := by
  have h2 : (processLine line net).2 = PumpState.listening := by
    unfold processLine
    simp only [hq, Bool.false_eq_true, if_false]
    split
    · split
      · rfl
      · split
        · rfl
        · split <;> rfl
    · rfl
  refine ⟨h2, ?_, ?_⟩
  · have hpair : processLine line net = ((processLine line net).1, PumpState.listening) := by
      rw [← h2]
    conv_lhs => rw [sendRun, hpair]
  · intro err hsw hrv hpe
    unfold processLine
    simp only [hq, Bool.false_eq_true, if_false, hsw, if_true, hpe]
    rw [if_neg hrv]

theorem c8_witness :
    (processLine "/x zz." (Except.error "u")).2 = PumpState.listening ∧
    sendRun [("/x zz.", Except.error "u"), ("/y 1", Except.ok ())] =
      ((sendRun [("/y 1", Except.ok ())]).1,
        (processLine "/x zz." (Except.error "u")).1 ::
          (sendRun [("/y 1", Except.ok ())]).2) ∧
    (processLine "/x zz." (Except.error "u")).1 =
      SendNotice.errParse "Invalid number: zz." := by
  have h := c8_send_isolation "/x zz." (Except.error "u")
    [("/y 1", Except.ok ())] (by decide)
  exact ⟨h.1, h.2.1, h.2.2 "Invalid number: zz." (by decide) (by decide) (by decide)⟩

/-! ### Helper lemmas for the whitespace-collapse claim -/

theorem splitWsAux_ne_nil (l : List Char) : splitWsAux l ≠ [] := by
  cases l with
  | nil => simp [splitWsAux]
  | cons c cs =>
    unfold splitWsAux
    split <;> simp

theorem splitWsAux_no_ws (l : List Char) :
    ∀ w ∈ splitWsAux l, ∀ c ∈ w, c.isWhitespace = false := by
  induction l with
  | nil =>
    intro w hw c hc
    simp [splitWsAux] at hw
    subst hw
    simp at hc
  | cons a as ih =>
    intro w hw c hc
    unfold splitWsAux at hw
    by_cases ha : a.isWhitespace
    · simp only [ha, if_true] at hw
      rcases List.mem_cons.mp hw with h | h
      · subst h; simp at hc
      · exact ih w h c hc
    · simp only [ha, if_false] at hw
      rcases List.mem_cons.mp hw with h | h
      · subst h
        rcases List.mem_cons.mp hc with h' | h'
        · subst h'; simpa using ha
        · cases hr : splitWsAux as with
          | nil => exact absurd hr (splitWsAux_ne_nil as)
          | cons w0 ws =>
            rw [hr] at h'
            simp only [List.headD_cons] at h'
            exact ih w0 (hr ▸ List.mem_cons_self w0 ws) c h'
      · cases hr : splitWsAux as with
        | nil => exact absurd hr (splitWsAux_ne_nil as)
        | cons w0 ws =>
          rw [hr] at h
          simp only [List.tail_cons] at h
          exact ih w (hr ▸ List.mem_cons_of_mem w0 h) c hc

theorem wordsOf_spec (l : List Char) :
    ∀ w ∈ wordsOf l, w ≠ [] ∧ ∀ c ∈ w, c.isWhitespace = false := by
  intro w hw
  unfold wordsOf at hw
  rw [List.mem_filter] at hw
  exact ⟨by simpa using hw.2, splitWsAux_no_ws l w hw.1⟩

theorem chain'_of_no_ws (w : List Char) (h : ∀ c ∈ w, c.isWhitespace = false) :
    w.Chain' (fun a b => ¬(a.isWhitespace ∧ b.isWhitespace)) := by
  induction w with
  | nil => simp
  | cons a t ih =>
    rw [List.chain'_cons']
    refine ⟨?_, ih fun c hc => h c (List.mem_cons_of_mem a hc)⟩
    intro y _
    have := h a (List.mem_cons_self a t)
    simp [this]

theorem joinSpace_head? (w : List Char) (ws : List (List Char)) (hw : w ≠ []) :
    (joinSpace (w :: ws)).head? = w.head? := by
  cases ws with
  | nil => rfl
  | cons w2 rest =>
    show (w ++ ' ' :: joinSpace (w2 :: rest)).head? = w.head?
    cases w with
    | nil => exact absurd rfl hw
    | cons a t => rfl

theorem chain'_joinSpace (ws : List (List Char))
    (h : ∀ w ∈ ws, w ≠ [] ∧ ∀ c ∈ w, c.isWhitespace = false) :
    (joinSpace ws).Chain' (fun a b => ¬(a.isWhitespace ∧ b.isWhitespace)) := by
  induction ws with
  | nil => simp [joinSpace]
  | cons w rest ih =>
    obtain ⟨hwne, hwc⟩ := h w (List.mem_cons_self w rest)
    have hrest := fun x hx => h x (List.mem_cons_of_mem w hx)
    cases rest with
    | nil => exact chain'_of_no_ws w hwc
    | cons w2 rest2 =>
      show (w ++ ' ' :: joinSpace (w2 :: rest2)).Chain' _
      apply List.Chain'.append (chain'_of_no_ws w hwc)
      · rw [List.chain'_cons']
        refine ⟨?_, ih hrest⟩
        intro y hy
        rw [joinSpace_head? w2 rest2 (hrest w2 (List.mem_cons_self w2 rest2)).1] at hy
        have hy2 := (hrest w2 (List.mem_cons_self w2 rest2)).2 y (List.mem_of_mem_head? hy)
        simp [hy2]
      · intro x hx y hy
        have hx2 := hwc x (List.mem_of_mem_getLast? hx)
        simp only [List.head?_cons, Option.mem_def, Option.some.injEq] at hy
        subst hy
        simp [hx2]

/-- C10: the send pump splits each command line on runs of whitespace and
re-joins the value tokens with single spaces, so the value string never
contains two adjacent whitespace characters; in particular, for the
command `/a "x  y"` the String argument actually sent is `"x y"` — the
operator's double space is collapsed. -/
theorem c10_whitespace_collapse :
    (∀ line : String,
        (rawValueOf line).data.Chain' (fun a b => ¬(a.isWhitespace ∧ b.isWhitespace))) ∧
    rawValueOf "/a \"x  y\"" = "\"x y\"" ∧
    processLine "/a \"x  y\"" (.ok ()) =
      (SendNotice.sent "/a" (ParsedValue.str "x y"), PumpState.listening) := by
  refine ⟨?_, by decide, by decide⟩
  intro line
  show (joinSpace ((wordsOf (jsTrim line).data).tail)).Chain' _
  apply chain'_joinSpace
  intro w hw
  exact wordsOf_spec (jsTrim line).data w (List.mem_of_mem_tail hw)

end OscDebugger
